import Mathlib

/-!
Verification of the crawler in `src/crawler.mjs` (seo-auditor-backend).

The crawler is embedded shallowly: the external collaborators (Node's WHATWG
`URL` parser, the `axios` HTTP client, the `cheerio` HTML library) are modelled
as an explicit environment `Env`, while the crawler's own control flow
(`crawlSite`, lines 8-52 of `src/crawler.mjs`) is translated line by line into
Lean functions.  The module-level `visited` set and `queue` array (lines 5-6)
become an explicit `CrawlState` value threaded through calls.  JavaScript
exceptions are modelled with `Except`; the `while` loop is run on fuel, with
`none` meaning the fuel ran out (the loop itself has no bound).
-/

namespace SeoCrawler

/-- The result of Node's `new URL(...)`: the pieces of a parsed URL the crawler
reads (`.hostname`, line 12 and line 39) and its serialization (`.href`,
line 37). -/
structure UrlParts where
  hostname : String
  href : String
  deriving Repr, DecidableEq

/-- The parts of a fetched HTML document that the crawler reads through
cheerio (lines 21-33 of `src/crawler.mjs`):
* `titleTexts`: the text contents of the `<title>` elements, in document order
  (`$(sel).text()` returns the concatenated text of every matched element);
* `descriptionContent`: the `content` attribute of the first
  `meta[name="description"]` element, `none` when absent
  (`.attr` reads the first matched element);
* `h1Count`, `h2Count`: the number of `<h1>` / `<h2>` elements;
* `canonicalHref`: the `href` attribute of the first `link[rel="canonical"]`;
* `robotsContent`: the `content` attribute of the first `meta[name="robots"]`;
* `hrefs`: the `href` attribute values of the `a[href]` elements, in document
  order. -/
structure Html where
  titleTexts : List String
  descriptionContent : Option String
  h1Count : Nat
  h2Count : Nat
  canonicalHref : Option String
  robotsContent : Option String
  hrefs : List String
  deriving Repr, DecidableEq

/-- Outcome of `axios.get(url, { timeout: 10000 })` (line 20): either a
response whose status passed axios's default `validateStatus` together with
its parsed body, or a thrown error that carries `err.response.status` when a
response completed with a non-success status and nothing when the failure was
transport-level (timeout, DNS, connection, TLS). -/
inductive FetchResult where
  | success (status : Nat) (body : Html)
  | failure (httpStatus : Option Nat)
  deriving Repr, DecidableEq

/-- The external world as the crawler sees it:
* `parseUrl s` models `new URL(s)` (lines 12 and 39): `none` means the
  constructor throws `TypeError [ERR_INVALID_URL]`;
* `resolveUrl href base` models `new URL(href, base)` (line 37);
* `fetch u` models the outcome of `axios.get(u, ...)` (line 20) together with
  cheerio's reading of the response body. -/
structure Env where
  parseUrl : String → Option UrlParts
  resolveUrl : String → String → Option UrlParts
  fetch : String → FetchResult

/-- The `status` field of a page record: either a numeric HTTP status code or
the string sentinel `'Erro'` pushed on line 47. -/
inductive Status where
  | code (n : Nat)
  | erro
  deriving Repr, DecidableEq

/-- One element of the returned report (pushed on line 30 for a parsed page,
line 47 for a caught error).  The error-path object of line 47 carries only
`url`, `status` and `depth`; the missing properties are `none` here, matching
`undefined` in JavaScript. -/
structure PageRecord where
  url : String
  status : Status
  title : Option String := none
  description : Option String := none
  h1 : Option Nat := none
  h2 : Option Nat := none
  canonical : Option String := none
  noindex : Option Bool := none
  depth : Nat
  deriving Repr, DecidableEq

/-- An element of the work queue (lines 9 and 43). -/
structure FrontierItem where
  url : String
  depth : Nat
  deriving Repr, DecidableEq

/-- The mutable state of the module and of one call: the module-level `visited`
set and `queue` array (lines 5-6, surviving across calls to `crawlSite`), the
per-call `report` array (line 10, reset on every call), and a trace `fetched`
of the URLs passed to `axios.get`, recording which fetches were attempted. -/
structure CrawlState where
  visited : List String
  queue : List FrontierItem
  report : List PageRecord
  fetched : List String
  deriving Repr, DecidableEq

/-- `err.response?.status || 'Erro'` (line 47): the numeric status when one is
available and non-falsy (`0` is falsy in JavaScript), the `'Erro'` sentinel
otherwise. -/
def statusOfErr : Option Nat → Status
  | some n => if n == 0 then Status.erro else Status.code n
  | none => Status.erro

/-- JavaScript `String.prototype.startsWith`, on the characters of the
strings. -/
def jsStartsWith (s pat : String) : Bool :=
  List.isPrefixOf pat.toList s.toList

/-- JavaScript `String.prototype.trim`: strip leading and trailing whitespace
characters. -/
def jsTrim (s : String) : String :=
  String.mk
    (((s.toList.dropWhile Char.isWhitespace).reverse.dropWhile
        Char.isWhitespace).reverse)

/-- `String.prototype.includes`: `hasSub pat l` is true iff `pat` occurs as a
contiguous run inside `l`. -/
def hasSub (pat : List Char) : List Char → Bool
  | [] => pat.isEmpty
  | c :: cs => List.isPrefixOf pat (c :: cs) || hasSub pat cs

/-- `$('meta[name="robots"]').attr('content')?.includes('noindex') || false`
(line 28). -/
def robotsNoindex : Option String → Bool
  | some c => hasSub "noindex".toList c.toList
  | none => false

/-- The record pushed on line 30 for a successfully fetched and parsed page,
with the extractions of lines 23-28.  `$('title').text()` concatenates the
text of every matched `<title>` element; `.attr(...) || ''` yields the empty
string when the element or attribute is absent. -/
def successRecord (u : String) (st : Nat) (h : Html) (d : Nat) : PageRecord :=
  { url := u
    status := Status.code st
    title := some (jsTrim (String.join h.titleTexts))
    description := some (h.descriptionContent.getD "")
    h1 := some h.h1Count
    h2 := some h.h2Count
    canonical := some (h.canonicalHref.getD "")
    noindex := some (robotsNoindex h.robotsContent)
    depth := d }

/-- The record pushed on line 47 when the `try` block throws. -/
def failRecord (u : String) (hs : Option Nat) (d : Nat) : PageRecord :=
  { url := u, status := statusOfErr hs, depth := d }

/-- The filter on line 35: keep an href iff it is non-empty (`href &&` — the
empty string is falsy) and does not start with `#`, `mailto:` or `tel:`. -/
def keepHref (href : String) : Bool :=
  !(href == "") && ! jsStartsWith href "#" && ! jsStartsWith href "mailto:" &&
    ! jsStartsWith href "tel:"

/-- The map on lines 36-38: a root-relative href is resolved against the
original seed URL via `new URL(href, startUrl).href`; any other href passes
through unchanged.  `Except.error` models the constructor throwing. -/
def resolveHref (env : Env) (startUrl href : String) : Except Unit String :=
  if jsStartsWith href "/" then
    match env.resolveUrl href startUrl with
    | some p => Except.ok p.href
    | none => Except.error ()
  else Except.ok href

/-- The predicate of the filter on line 39: `new URL(href).hostname ===
baseDomain`.  `Except.error` models `new URL(href)` throwing on a string that
is not an absolute URL (for example a relative path such as `about.html`). -/
def scopeKeep (env : Env) (baseDomain href : String) : Except Unit Bool :=
  match env.parseUrl href with
  | some p => Except.ok (p.hostname == baseDomain)
  | none => Except.error ()

/-- `Array.prototype.map` with a callback that may throw: the first throw
aborts the whole pipeline. -/
def exMap (f : String → Except Unit String) : List String → Except Unit (List String)
  | [] => Except.ok []
  | a :: as =>
    match f a with
    | Except.ok b => (exMap f as).map fun bs => b :: bs
    | Except.error e => Except.error e

/-- `Array.prototype.filter` with a predicate that may throw. -/
def exFilter (p : String → Except Unit Bool) : List String → Except Unit (List String)
  | [] => Except.ok []
  | a :: as =>
    match p a with
    | Except.ok b => (exFilter p as).map fun bs => if b then a :: bs else bs
    | Except.error e => Except.error e

/-- The whole link pipeline of lines 32-39: filter out non-navigable hrefs,
resolve root-relative ones against the seed URL, keep those whose hostname
equals the base domain.  An exception anywhere (`Except.error`) discards the
entire result, exactly as a throw inside `.map`/`.filter` does. -/
def processLinks (env : Env) (startUrl baseDomain : String) (hrefs : List String) :
    Except Unit (List String) :=
  match exMap (resolveHref env startUrl) (hrefs.filter keepHref) with
  | Except.ok resolved => exFilter (scopeKeep env baseDomain) resolved
  | Except.error e => Except.error e

/-- The for-loop of lines 41-45: push each link not in `visited` onto the back
of the queue at `depth + 1`.  `visited` is not updated inside the loop, so a
link occurring twice in `links` is enqueued twice. -/
def enqueueLinks (visited : List String) (depth : Nat) :
    List String → List FrontierItem → List FrontierItem
  | [], q => q
  | l :: ls, q =>
    enqueueLinks visited depth ls
      (if visited.contains l then q else q ++ [{ url := l, depth := depth + 1 }])

/-- One iteration of the `while` loop **after** the dequeue (lines 16-48),
applied to the already-dequeued item `(u, d)` and the state whose queue is the
remainder.  Skip when visited or over depth (line 16); otherwise mark visited,
attempt the fetch, and either extract + push the success record + enqueue the
in-scope links, or — when the fetch or any later expression of the `try` block
throws — push the error record of line 47. -/
def step (env : Env) (startUrl baseDomain : String) (maxDepth : Nat)
    (u : String) (d : Nat) (s : CrawlState) : CrawlState :=
  if s.visited.contains u = true ∨ maxDepth < d then s
  else
    match env.fetch u with
    | FetchResult.success st h =>
      match processLinks env startUrl baseDomain h.hrefs with
      | Except.ok links =>
        { visited := s.visited ++ [u]
          queue := enqueueLinks (s.visited ++ [u]) d links s.queue
          report := s.report ++ [successRecord u st h d]
          fetched := s.fetched ++ [u] }
      | Except.error _ =>
        { visited := s.visited ++ [u]
          queue := s.queue
          report := s.report ++ [successRecord u st h d, failRecord u none d]
          fetched := s.fetched ++ [u] }
    | FetchResult.failure hs =>
      { visited := s.visited ++ [u]
        queue := s.queue
        report := s.report ++ [failRecord u hs d]
        fetched := s.fetched ++ [u] }

/-- The `while (queue.length > 0)` loop (lines 14-49), run on fuel; `none`
means the fuel was exhausted before the queue emptied. -/
def crawlLoop (env : Env) (startUrl baseDomain : String) (maxDepth : Nat) :
    Nat → CrawlState → Option CrawlState
  | fuel, s =>
    match s.queue with
    | [] => some s
    | item :: rest =>
      match fuel with
      | 0 => none
      | f + 1 =>
        crawlLoop env startUrl baseDomain maxDepth f
          (step env startUrl baseDomain maxDepth item.url item.depth { s with queue := rest })

/-- Outcome of one call to `crawlSite`: either the `TypeError` of
`new URL(startUrl)` (line 12) propagating out (carrying the module state left
behind, since the seed was already pushed on line 9), or a normal return of
the report (line 51) with the final module state, or fuel exhaustion (an
artifact of the fuelled loop, not of the program). -/
inductive CrawlOutcome where
  | thrown (g : CrawlState)
  | returned (report : List PageRecord) (g : CrawlState)
  | outOfFuel
  deriving Repr, DecidableEq

/-- `crawlSite(startUrl, maxDepth)` (lines 8-52), as a function of the ambient
module state `g`.  Line order is preserved: the seed is pushed (line 9) and
the report reset (line 10) before `new URL(startUrl)` may throw (line 12). -/
def crawlSite (env : Env) (startUrl : String) (maxDepth : Nat) (fuel : Nat)
    (g : CrawlState) : CrawlOutcome :=
  let s0 : CrawlState :=
    { g with queue := g.queue ++ [{ url := startUrl, depth := 0 }], report := [] }
  match env.parseUrl startUrl with
  | none => CrawlOutcome.thrown s0
  | some base =>
    match crawlLoop env startUrl base.hostname maxDepth fuel s0 with
    | some sF => CrawlOutcome.returned sF.report sF
    | none => CrawlOutcome.outOfFuel

/-- The fresh module state: `visited` and `queue` empty, as on lines 5-6 when
the module is first loaded. -/
def freshState : CrawlState :=
  { visited := [], queue := [], report := [], fetched := [] }

/-- The report a caller observes: the list of records on a normal return,
nothing otherwise. -/
def reportOf : CrawlOutcome → List PageRecord
  | CrawlOutcome.returned rep _ => rep
  | _ => []

/-! ### Unfolding lemmas for the loop -/

theorem crawlLoop_queue_nil (env : Env) (su bd : String) (D fuel : Nat) (s : CrawlState)
    (hq : s.queue = []) : crawlLoop env su bd D fuel s = some s := by
  unfold crawlLoop
  rw [hq]

theorem crawlLoop_queue_cons_zero (env : Env) (su bd : String) (D : Nat) (s : CrawlState)
    (item : FrontierItem) (rest : List FrontierItem) (hq : s.queue = item :: rest) :
    crawlLoop env su bd D 0 s = none := by
  unfold crawlLoop
  rw [hq]

theorem crawlLoop_queue_cons_succ (env : Env) (su bd : String) (D f : Nat) (s : CrawlState)
    (item : FrontierItem) (rest : List FrontierItem) (hq : s.queue = item :: rest) :
    crawlLoop env su bd D (f + 1) s =
      crawlLoop env su bd D f
        (step env su bd D item.url item.depth { s with queue := rest }) := by
  conv =>
    lhs
    unfold crawlLoop
  rw [hq]

/-! ### Case analysis on one loop iteration -/

/-- Eliminator for `step`: any property of the post-state follows from the four
cases of the iteration body — skip (line 16), success with intact link
pipeline (lines 20-45), success whose link pipeline throws (caught on line 46),
and fetch failure (caught on line 46). -/
theorem step_elim (env : Env) (su bd : String) (D : Nat) (u : String) (d : Nat)
    (s : CrawlState) (C : CrawlState → Prop)
    (hskip : s.visited.contains u = true ∨ D < d → C s)
    (hok : ∀ st h links,
      ¬(s.visited.contains u = true ∨ D < d) →
      env.fetch u = FetchResult.success st h →
      processLinks env su bd h.hrefs = Except.ok links →
      C { visited := s.visited ++ [u]
          queue := enqueueLinks (s.visited ++ [u]) d links s.queue
          report := s.report ++ [successRecord u st h d]
          fetched := s.fetched ++ [u] })
    (hbad : ∀ st h,
      ¬(s.visited.contains u = true ∨ D < d) →
      env.fetch u = FetchResult.success st h →
      processLinks env su bd h.hrefs = Except.error () →
      C { visited := s.visited ++ [u]
          queue := s.queue
          report := s.report ++ [successRecord u st h d, failRecord u none d]
          fetched := s.fetched ++ [u] })
    (hfail : ∀ hs,
      ¬(s.visited.contains u = true ∨ D < d) →
      env.fetch u = FetchResult.failure hs →
      C { visited := s.visited ++ [u]
          queue := s.queue
          report := s.report ++ [failRecord u hs d]
          fetched := s.fetched ++ [u] }) :
    C (step env su bd D u d s) := by
  by_cases hcond : s.visited.contains u = true ∨ D < d
  · have hs : step env su bd D u d s = s := by
      unfold step
      rw [if_pos hcond]
    rw [hs]
    exact hskip hcond
  · cases hf : env.fetch u with
    | success st h =>
      cases hp : processLinks env su bd h.hrefs with
      | ok links =>
        have hs : step env su bd D u d s =
            { visited := s.visited ++ [u]
              queue := enqueueLinks (s.visited ++ [u]) d links s.queue
              report := s.report ++ [successRecord u st h d]
              fetched := s.fetched ++ [u] } := by
          unfold step
          rw [if_neg hcond]
          simp only [hf, hp]
        rw [hs]
        exact hok st h links hcond hf hp
      | error e =>
        cases e
        have hs : step env su bd D u d s =
            { visited := s.visited ++ [u]
              queue := s.queue
              report := s.report ++ [successRecord u st h d, failRecord u none d]
              fetched := s.fetched ++ [u] } := by
          unfold step
          rw [if_neg hcond]
          simp only [hf, hp]
        rw [hs]
        exact hbad st h hcond hf hp
    | failure hcode =>
      have hs : step env su bd D u d s =
          { visited := s.visited ++ [u]
            queue := s.queue
            report := s.report ++ [failRecord u hcode d]
            fetched := s.fetched ++ [u] } := by
        unfold step
        rw [if_neg hcond]
        simp only [hf]
      rw [hs]
      exact hfail hcode hcond hf

/-! ### The generic loop invariant -/

/-- Any property preserved by every iteration of the body holds of the final
state of a terminating run of the loop. -/
theorem crawlLoop_inv (env : Env) (su bd : String) (D : Nat) (P : CrawlState → Prop)
    (hstep : ∀ (item : FrontierItem) (rest : List FrontierItem) (s : CrawlState),
      P s → s.queue = item :: rest →
      P (step env su bd D item.url item.depth { s with queue := rest })) :
    ∀ (fuel : Nat) (s sF : CrawlState),
      P s → crawlLoop env su bd D fuel s = some sF → P sF := by
  intro fuel
  induction fuel with
  | zero =>
    intro s sF hP hrun
    cases hq : s.queue with
    | nil =>
      rw [crawlLoop_queue_nil env su bd D 0 s hq] at hrun
      cases hrun
      exact hP
    | cons item rest =>
      rw [crawlLoop_queue_cons_zero env su bd D s item rest hq] at hrun
      cases hrun
  | succ f ih =>
    intro s sF hP hrun
    cases hq : s.queue with
    | nil =>
      rw [crawlLoop_queue_nil env su bd D (f + 1) s hq] at hrun
      cases hrun
      exact hP
    | cons item rest =>
      rw [crawlLoop_queue_cons_succ env su bd D f s item rest hq] at hrun
      exact ih _ _ (hstep item rest s hP hq) hrun

/-- A terminating run ends with an empty queue: the loop exits only when
`queue.length > 0` fails. -/
theorem crawlLoop_final_queue (env : Env) (su bd : String) (D : Nat) :
    ∀ (fuel : Nat) (s sF : CrawlState),
      crawlLoop env su bd D fuel s = some sF → sF.queue = [] := by
  intro fuel
  induction fuel with
  | zero =>
    intro s sF hrun
    cases hq : s.queue with
    | nil =>
      rw [crawlLoop_queue_nil env su bd D 0 s hq] at hrun
      cases hrun
      exact hq
    | cons item rest =>
      rw [crawlLoop_queue_cons_zero env su bd D s item rest hq] at hrun
      cases hrun
  | succ f ih =>
    intro s sF hrun
    cases hq : s.queue with
    | nil =>
      rw [crawlLoop_queue_nil env su bd D (f + 1) s hq] at hrun
      cases hrun
      exact hq
    | cons item rest =>
      rw [crawlLoop_queue_cons_succ env su bd D f s item rest hq] at hrun
      exact ih _ _ hrun

/-- Splitting a normal return of `crawlSite` into its parts: the start URL
parsed, the loop ran to completion from the seeded state, and the report is
the final state's report. -/
theorem crawlSite_returned (env : Env) (su : String) (D fuel : Nat) (g : CrawlState)
    (rep : List PageRecord) (gF : CrawlState)
    (hr : crawlSite env su D fuel g = CrawlOutcome.returned rep gF) :
    ∃ base, env.parseUrl su = some base ∧
      crawlLoop env su base.hostname D fuel
        { g with queue := g.queue ++ [{ url := su, depth := 0 }], report := [] } = some gF ∧
      rep = gF.report := by
  unfold crawlSite at hr
  cases hp : env.parseUrl su with
  | none =>
    simp only [hp] at hr
    exact CrawlOutcome.noConfusion hr
  | some base =>
    simp only [hp] at hr
    cases hloop : crawlLoop env su base.hostname D fuel
        { g with queue := g.queue ++ [{ url := su, depth := 0 }], report := [] } with
    | none =>
      simp only [hloop] at hr
      exact CrawlOutcome.noConfusion hr
    | some sF =>
      simp only [hloop] at hr
      rw [CrawlOutcome.returned.injEq] at hr
      obtain ⟨hrep, hgF⟩ := hr
      subst hgF
      exact ⟨base, rfl, hloop, hrep.symm⟩

/-! ### Lemmas about the enqueue loop and the link pipeline -/

theorem enqueueLinks_eq_append (v : List String) (d : Nat) :
    ∀ (ls : List String) (q : List FrontierItem),
      enqueueLinks v d ls q = q ++ enqueueLinks v d ls [] := by
  intro ls
  induction ls with
  | nil => intro q; simp [enqueueLinks]
  | cons l ls ih =>
    intro q
    by_cases hc : v.contains l = true
    · simp only [enqueueLinks]
      rw [if_pos hc, if_pos hc]
      exact ih q
    · simp only [enqueueLinks]
      rw [if_neg hc, if_neg hc]
      rw [ih]
      conv =>
        rhs
        rw [ih]
      simp [List.append_assoc]

theorem enqueueLinks_mem (v : List String) (d : Nat) :
    ∀ (ls : List String) (q : List FrontierItem) (i : FrontierItem),
      i ∈ enqueueLinks v d ls q → i ∈ q ∨ (i.depth = d + 1 ∧ i.url ∈ ls) := by
  intro ls
  induction ls with
  | nil =>
    intro q i h
    exact Or.inl h
  | cons l ls ih =>
    intro q i h
    simp only [enqueueLinks] at h
    rcases ih _ i h with h' | h'
    · by_cases hc : v.contains l = true
      · rw [if_pos hc] at h'
        exact Or.inl h'
      · rw [if_neg hc] at h'
        rcases List.mem_append.mp h' with h'' | h''
        · exact Or.inl h''
        · rcases List.mem_singleton.mp h'' with rfl
          exact Or.inr ⟨rfl, List.mem_cons_self l ls⟩
    · exact Or.inr ⟨h'.1, List.mem_cons_of_mem l h'.2⟩

/-- Every item the enqueue loop adds (on top of the ambient queue) sits at
depth `d + 1` and carries one of the links. -/
theorem enqueueLinks_new_mem (v : List String) (d : Nat) (ls : List String)
    (i : FrontierItem) (h : i ∈ enqueueLinks v d ls []) :
    i.depth = d + 1 ∧ i.url ∈ ls := by
  rcases enqueueLinks_mem v d ls [] i h with h' | h'
  · cases h'
  · exact h'

theorem exMap_ok_mem (f : String → Except Unit String) :
    ∀ (ls out : List String), exMap f ls = Except.ok out →
      ∀ b ∈ out, ∃ a ∈ ls, f a = Except.ok b := by
  intro ls
  induction ls with
  | nil =>
    intro out h b hb
    simp only [exMap] at h
    cases h
    cases hb
  | cons a as ih =>
    intro out h b hb
    simp only [exMap] at h
    cases hfa : f a with
    | ok b0 =>
      rw [hfa] at h
      cases hrec : exMap f as with
      | ok bs =>
        rw [hrec] at h
        simp only [Except.map] at h
        cases h
        rcases List.mem_cons.mp hb with rfl | hb'
        · exact ⟨a, List.mem_cons_self a as, hfa⟩
        · obtain ⟨a', ha', hfa'⟩ := ih bs hrec b hb'
          exact ⟨a', List.mem_cons_of_mem a ha', hfa'⟩
      | error e =>
        rw [hrec] at h
        simp only [Except.map] at h
        cases h
    | error e =>
      rw [hfa] at h
      cases h

theorem exFilter_ok_mem (p : String → Except Unit Bool) :
    ∀ (ls out : List String), exFilter p ls = Except.ok out →
      ∀ a ∈ out, a ∈ ls ∧ p a = Except.ok true := by
  intro ls
  induction ls with
  | nil =>
    intro out h a ha
    simp only [exFilter] at h
    cases h
    cases ha
  | cons x xs ih =>
    intro out h a ha
    simp only [exFilter] at h
    cases hpx : p x with
    | ok b =>
      rw [hpx] at h
      cases hrec : exFilter p xs with
      | ok rest =>
        rw [hrec] at h
        simp only [Except.map] at h
        cases h
        cases b with
        | true =>
          rcases List.mem_cons.mp ha with rfl | ha'
          · exact ⟨List.mem_cons_self _ _, hpx⟩
          · obtain ⟨hm, hp'⟩ := ih rest hrec a ha'
            exact ⟨List.mem_cons_of_mem _ hm, hp'⟩
        | false =>
          obtain ⟨hm, hp'⟩ := ih rest hrec a ha
          exact ⟨List.mem_cons_of_mem _ hm, hp'⟩
      | error e =>
        rw [hrec] at h
        simp only [Except.map] at h
        cases h
    | error e =>
      rw [hpx] at h
      cases h

/-- Every link that survives the pipeline of lines 32-39 parses to a URL whose
hostname is exactly the base domain. -/
theorem processLinks_mem_host (env : Env) (su bd : String) (hrefs links : List String)
    (h : processLinks env su bd hrefs = Except.ok links) :
    ∀ l ∈ links, ∃ p, env.parseUrl l = some p ∧ p.hostname = bd := by
  intro l hl
  unfold processLinks at h
  cases hm : exMap (resolveHref env su) (hrefs.filter keepHref) with
  | ok resolved =>
    rw [hm] at h
    obtain ⟨_, hkeep⟩ := exFilter_ok_mem (scopeKeep env bd) resolved links h l hl
    unfold scopeKeep at hkeep
    cases hp : env.parseUrl l with
    | some p =>
      rw [hp] at hkeep
      injection hkeep with hbeq
      exact ⟨p, rfl, eq_of_beq hbeq⟩
    | none =>
      rw [hp] at hkeep
      cases hkeep
  | error e =>
    rw [hm] at h
    cases h

/-! ### Link-reachability, for the depth-bound claim -/

/-- The links the crawler would discover on page `u`: the output of the
pipeline of lines 32-39 on the page's hrefs, when `u` fetches successfully and
the pipeline does not throw, nothing otherwise.  This is a function of the
environment alone, so it describes the site's link graph independently of any
particular crawl. -/
def linksFrom (env : Env) (su bd : String) (u : String) : List String :=
  match env.fetch u with
  | FetchResult.success _ h =>
    match processLinks env su bd h.hrefs with
    | Except.ok ls => ls
    | Except.error _ => []
  | FetchResult.failure _ => []

theorem linksFrom_eq (env : Env) (su bd u : String) (st : Nat) (h : Html)
    (ls : List String) (hf : env.fetch u = FetchResult.success st h)
    (hp : processLinks env su bd h.hrefs = Except.ok ls) :
    linksFrom env su bd u = ls := by
  unfold linksFrom
  simp only [hf, hp]

/-- `Reach env su bd d v`: there is a chain of discovered links of length `d`
from the seed `su` to `v` — the seed itself at length `0`, and one more link
step through `linksFrom` otherwise. -/
inductive Reach (env : Env) (su bd : String) : Nat → String → Prop where
  | seed : Reach env su bd 0 su
  | link {d : Nat} {u v : String} :
      Reach env su bd d u → v ∈ linksFrom env su bd u → Reach env su bd (d + 1) v

/-- Loop invariant for the depth-bound claim: every queued item is reachable
by a link chain of exactly its recorded depth, and every report record is
reachable at its depth, which never exceeds the bound. -/
def ReachInv (env : Env) (su bd : String) (D : Nat) (s : CrawlState) : Prop :=
  (∀ i ∈ s.queue, Reach env su bd i.depth i.url) ∧
  (∀ r ∈ s.report, Reach env su bd r.depth r.url ∧ r.depth ≤ D)

theorem ReachInv_step (env : Env) (su bd : String) (D : Nat)
    (item : FrontierItem) (rest : List FrontierItem) (s : CrawlState)
    (hP : ReachInv env su bd D s) (hq : s.queue = item :: rest) :
    ReachInv env su bd D
      (step env su bd D item.url item.depth { s with queue := rest }) := by
  obtain ⟨hQ, hR⟩ := hP
  have hitem : Reach env su bd item.depth item.url :=
    hQ item (by rw [hq]; exact List.mem_cons_self _ _)
  have hrest : ∀ i ∈ rest, Reach env su bd i.depth i.url := fun i hi =>
    hQ i (by rw [hq]; exact List.mem_cons_of_mem _ hi)
  apply step_elim env su bd D item.url item.depth { s with queue := rest }
    (ReachInv env su bd D)
  · intro _
    exact ⟨hrest, hR⟩
  · intro st h links hcond hf hp
    have hd : item.depth ≤ D := Nat.le_of_not_lt (not_or.mp hcond).2
    constructor
    · intro i hi
      rcases enqueueLinks_mem _ _ _ _ i hi with hi' | ⟨hdep, hu⟩
      · exact hrest i hi'
      · rw [hdep]
        exact Reach.link hitem
          (by rw [linksFrom_eq env su bd item.url st h links hf hp]; exact hu)
    · intro r hr
      rcases List.mem_append.mp hr with hr' | hr'
      · exact hR r hr'
      · rcases List.mem_singleton.mp hr' with rfl
        exact ⟨hitem, hd⟩
  · intro st h hcond hf hp
    have hd : item.depth ≤ D := Nat.le_of_not_lt (not_or.mp hcond).2
    constructor
    · exact hrest
    · intro r hr
      rcases List.mem_append.mp hr with hr' | hr'
      · exact hR r hr'
      · rcases List.mem_cons.mp hr' with rfl | hr''
        · exact ⟨hitem, hd⟩
        · rcases List.mem_singleton.mp hr'' with rfl
          exact ⟨hitem, hd⟩
  · intro hs hcond hf
    have hd : item.depth ≤ D := Nat.le_of_not_lt (not_or.mp hcond).2
    constructor
    · exact hrest
    · intro r hr
      rcases List.mem_append.mp hr with hr' | hr'
      · exact hR r hr'
      · rcases List.mem_singleton.mp hr' with rfl
        exact ⟨hitem, hd⟩

/-- Claim C4: for every crawl with maximum depth `D` started on a quiescent
module state, no record of the returned report has depth greater than `D`,
and a URL all of whose link chains from the seed are longer than `D` never
appears in the report. -/
theorem crawl_depth_bounded (env : Env) (su : String) (base : UrlParts)
    (D fuel : Nat) (g gF : CrawlState) (rep : List PageRecord)
    (hq0 : g.queue = [])
    (hp : env.parseUrl su = some base)
    (hr : crawlSite env su D fuel g = CrawlOutcome.returned rep gF) :
    (∀ r ∈ rep, r.depth ≤ D) ∧
    (∀ v, (∀ d, d ≤ D → ¬ Reach env su base.hostname d v) →
      ∀ r ∈ rep, r.url ≠ v) := by
  obtain ⟨base', hp', hloop, hrep⟩ := crawlSite_returned env su D fuel g rep gF hr
  rw [hp] at hp'
  injection hp' with hbase
  subst hbase
  have hinit : ReachInv env su base.hostname D
      { g with queue := g.queue ++ [{ url := su, depth := 0 }], report := [] } := by
    constructor
    · intro i hi
      simp only [hq0, List.nil_append, List.mem_singleton] at hi
      rw [hi]
      exact Reach.seed
    · intro r hr'
      cases hr'
  have hfin : ReachInv env su base.hostname D gF :=
    crawlLoop_inv env su base.hostname D (ReachInv env su base.hostname D)
      (ReachInv_step env su base.hostname D) fuel _ gF hinit hloop
  constructor
  · intro r hr'
    exact (hfin.2 r (by rw [← hrep]; exact hr')).2
  · intro v hv r hr' hurl
    have hrec := hfin.2 r (by rw [← hrep]; exact hr')
    exact hv r.depth hrec.2 (by rw [← hurl]; exact hrec.1)

/-! ### Breadth-first order -/

theorem pairwise_depth_of_const (c : Nat) :
    ∀ (l : List FrontierItem), (∀ i ∈ l, i.depth = c) →
      List.Pairwise (fun a b : FrontierItem => a.depth ≤ b.depth) l := by
  intro l
  induction l with
  | nil => intro _; exact List.Pairwise.nil
  | cons x xs ih =>
    intro h
    refine List.pairwise_cons.mpr ⟨?_, ih fun i hi => h i (List.mem_cons_of_mem _ hi)⟩
    intro j hj
    rw [h x (List.mem_cons_self _ _), h j (List.mem_cons_of_mem _ hj)]

/-- Loop invariant for breadth-first order: report depths are non-decreasing,
queue depths are non-decreasing, every queued depth is at least every reported
depth, and any two queued depths differ by at most one. -/
def BfsInv (s : CrawlState) : Prop :=
  List.Pairwise (fun a b : PageRecord => a.depth ≤ b.depth) s.report ∧
  List.Pairwise (fun a b : FrontierItem => a.depth ≤ b.depth) s.queue ∧
  (∀ r ∈ s.report, ∀ i ∈ s.queue, r.depth ≤ i.depth) ∧
  (∀ i ∈ s.queue, ∀ j ∈ s.queue, i.depth ≤ j.depth + 1)

theorem BfsInv_step (env : Env) (su bd : String) (D : Nat)
    (item : FrontierItem) (rest : List FrontierItem) (s : CrawlState)
    (hP : BfsInv s) (hq : s.queue = item :: rest) :
    BfsInv (step env su bd D item.url item.depth { s with queue := rest }) := by
  obtain ⟨hRp, hQp, hRQ, hQQ⟩ := hP
  rw [hq] at hQp hRQ hQQ
  have hhead : ∀ i ∈ rest, item.depth ≤ i.depth := (List.pairwise_cons.mp hQp).1
  have hrestP : List.Pairwise (fun a b : FrontierItem => a.depth ≤ b.depth) rest :=
    (List.pairwise_cons.mp hQp).2
  have hRitem : ∀ r ∈ s.report, r.depth ≤ item.depth := fun r hr =>
    hRQ r hr item (List.mem_cons_self _ _)
  have hRrest : ∀ r ∈ s.report, ∀ i ∈ rest, r.depth ≤ i.depth := fun r hr i hi =>
    hRQ r hr i (List.mem_cons_of_mem _ hi)
  have hspread : ∀ i ∈ rest, i.depth ≤ item.depth + 1 := fun i hi =>
    hQQ i (List.mem_cons_of_mem _ hi) item (List.mem_cons_self _ _)
  have hQQrest : ∀ i ∈ rest, ∀ j ∈ rest, i.depth ≤ j.depth + 1 := fun i hi j hj =>
    hQQ i (List.mem_cons_of_mem _ hi) j (List.mem_cons_of_mem _ hj)
  apply step_elim env su bd D item.url item.depth { s with queue := rest } BfsInv
  · intro _
    exact ⟨hRp, hrestP, hRrest, hQQrest⟩
  · intro st h links hcond hf hp
    rw [enqueueLinks_eq_append]
    set news := enqueueLinks (s.visited ++ [item.url]) item.depth links [] with hnews
    have hnewd : ∀ i ∈ news, i.depth = item.depth + 1 := fun i hi =>
      (enqueueLinks_new_mem _ _ _ i (by rw [hnews] at hi; exact hi)).1
    refine ⟨?_, ?_, ?_, ?_⟩
    · refine List.pairwise_append.mpr ⟨hRp, List.pairwise_singleton _ _, ?_⟩
      intro a ha b hb
      rcases List.mem_singleton.mp hb with rfl
      exact hRitem a ha
    · refine List.pairwise_append.mpr ⟨hrestP, pairwise_depth_of_const _ news hnewd, ?_⟩
      intro a ha b hb
      rw [hnewd b hb]
      exact hspread a ha
    · intro r hr i hi
      rcases List.mem_append.mp hr with hr' | hr'
      · rcases List.mem_append.mp hi with hi' | hi'
        · exact hRrest r hr' i hi'
        · rw [hnewd i hi']
          exact Nat.le_succ_of_le (hRitem r hr')
      · rcases List.mem_singleton.mp hr' with rfl
        rcases List.mem_append.mp hi with hi' | hi'
        · exact hhead i hi'
        · rw [hnewd i hi']
          exact Nat.le_succ _
    · intro i hi j hj
      rcases List.mem_append.mp hi with hi' | hi'
      · rcases List.mem_append.mp hj with hj' | hj'
        · exact hQQrest i hi' j hj'
        · rw [hnewd j hj']
          exact Nat.le_succ_of_le (hspread i hi')
      · rw [hnewd i hi']
        rcases List.mem_append.mp hj with hj' | hj'
        · exact Nat.succ_le_succ (hhead j hj')
        · rw [hnewd j hj']
          exact Nat.le_succ _
  · intro st h hcond hf hp
    refine ⟨?_, hrestP, ?_, hQQrest⟩
    · refine List.pairwise_append.mpr ⟨hRp, ?_, ?_⟩
      · exact List.pairwise_cons.mpr ⟨fun b hb => by
          rcases List.mem_singleton.mp hb with rfl; exact Nat.le_refl _,
          List.pairwise_singleton _ _⟩
      · intro a ha b hb
        rcases List.mem_cons.mp hb with rfl | hb'
        · exact hRitem a ha
        · rcases List.mem_singleton.mp hb' with rfl
          exact hRitem a ha
    · intro r hr i hi
      rcases List.mem_append.mp hr with hr' | hr'
      · exact hRrest r hr' i hi
      · rcases List.mem_cons.mp hr' with rfl | hr''
        · exact hhead i hi
        · rcases List.mem_singleton.mp hr'' with rfl
          exact hhead i hi
  · intro hs hcond hf
    refine ⟨?_, hrestP, ?_, hQQrest⟩
    · refine List.pairwise_append.mpr ⟨hRp, List.pairwise_singleton _ _, ?_⟩
      intro a ha b hb
      rcases List.mem_singleton.mp hb with rfl
      exact hRitem a ha
    · intro r hr i hi
      rcases List.mem_append.mp hr with hr' | hr'
      · exact hRrest r hr' i hi
      · rcases List.mem_singleton.mp hr' with rfl
        exact hhead i hi

/-- Claim C5: the report of a crawl started on a quiescent module state is in
breadth-first order — record depths are non-decreasing along the report, so a
record at a strictly smaller depth always appears before one at a larger
depth. -/
theorem crawl_breadth_first (env : Env) (su : String) (D fuel : Nat)
    (g gF : CrawlState) (rep : List PageRecord)
    (hq0 : g.queue = [])
    (hr : crawlSite env su D fuel g = CrawlOutcome.returned rep gF) :
    List.Pairwise (fun a b : PageRecord => a.depth ≤ b.depth) rep := by
  obtain ⟨base, hp', hloop, hrep⟩ := crawlSite_returned env su D fuel g rep gF hr
  have hinit : BfsInv
      { g with queue := g.queue ++ [{ url := su, depth := 0 }], report := [] } := by
    refine ⟨List.Pairwise.nil, ?_, ?_, ?_⟩
    · simp [hq0]
    · intro r hr'
      cases hr'
    · intro i hi j hj
      simp only [hq0, List.nil_append, List.mem_singleton] at hi hj
      rw [hi, hj]
      exact Nat.le_succ _
  have hfin : BfsInv gF :=
    crawlLoop_inv env su base.hostname D BfsInv
      (BfsInv_step env su base.hostname D) fuel _ gF hinit hloop
  rw [hrep]
  exact hfin.1

/-! ### Domain scoping -/

/-- Loop invariant for domain scoping: every queued and every reported URL
parses to a URL whose hostname is exactly the base domain. -/
def HostInv (env : Env) (bd : String) (s : CrawlState) : Prop :=
  (∀ i ∈ s.queue, ∃ p, env.parseUrl i.url = some p ∧ p.hostname = bd) ∧
  (∀ r ∈ s.report, ∃ p, env.parseUrl r.url = some p ∧ p.hostname = bd)

theorem HostInv_step (env : Env) (su bd : String) (D : Nat)
    (item : FrontierItem) (rest : List FrontierItem) (s : CrawlState)
    (hP : HostInv env bd s) (hq : s.queue = item :: rest) :
    HostInv env bd (step env su bd D item.url item.depth { s with queue := rest }) := by
  obtain ⟨hQ, hR⟩ := hP
  have hitem : ∃ p, env.parseUrl item.url = some p ∧ p.hostname = bd :=
    hQ item (by rw [hq]; exact List.mem_cons_self _ _)
  have hrest : ∀ i ∈ rest, ∃ p, env.parseUrl i.url = some p ∧ p.hostname = bd :=
    fun i hi => hQ i (by rw [hq]; exact List.mem_cons_of_mem _ hi)
  apply step_elim env su bd D item.url item.depth { s with queue := rest } (HostInv env bd)
  · intro _
    exact ⟨hrest, hR⟩
  · intro st h links hcond hf hp
    constructor
    · intro i hi
      rcases enqueueLinks_mem _ _ _ _ i hi with hi' | ⟨_, hu⟩
      · exact hrest i hi'
      · exact processLinks_mem_host env su bd h.hrefs links hp i.url hu
    · intro r hr
      rcases List.mem_append.mp hr with hr' | hr'
      · exact hR r hr'
      · rcases List.mem_singleton.mp hr' with rfl
        exact hitem
  · intro st h hcond hf hp
    constructor
    · exact hrest
    · intro r hr
      rcases List.mem_append.mp hr with hr' | hr'
      · exact hR r hr'
      · rcases List.mem_cons.mp hr' with rfl | hr''
        · exact hitem
        · rcases List.mem_singleton.mp hr'' with rfl
          exact hitem
  · intro hs hcond hf
    constructor
    · exact hrest
    · intro r hr
      rcases List.mem_append.mp hr with hr' | hr'
      · exact hR r hr'
      · rcases List.mem_singleton.mp hr' with rfl
        exact hitem

/-- Claim C6: a discovered link is enqueued only if its hostname exactly
equals the seed URL's hostname (first conjunct, about one iteration), and
consequently every URL in the report of a crawl started on a quiescent module
state parses to the seed's exact hostname (second conjunct). -/
theorem crawl_domain_scoped (env : Env) (su : String) (base : UrlParts)
    (D fuel : Nat) (g gF : CrawlState) (rep : List PageRecord)
    (hq0 : g.queue = [])
    (hp : env.parseUrl su = some base)
    (hr : crawlSite env su D fuel g = CrawlOutcome.returned rep gF) :
    (∀ (u : String) (d : Nat) (s : CrawlState) (i : FrontierItem),
      i ∈ (step env su base.hostname D u d s).queue →
      i ∈ s.queue ∨ ∃ p, env.parseUrl i.url = some p ∧ p.hostname = base.hostname) ∧
    (∀ r ∈ rep, ∃ p, env.parseUrl r.url = some p ∧ p.hostname = base.hostname) := by
  obtain ⟨base', hp', hloop, hrep⟩ := crawlSite_returned env su D fuel g rep gF hr
  rw [hp] at hp'
  injection hp' with hbase
  subst hbase
  constructor
  · intro u d s i
    apply step_elim env su base.hostname D u d s
      (fun s' => i ∈ s'.queue →
        i ∈ s.queue ∨ ∃ p, env.parseUrl i.url = some p ∧ p.hostname = base.hostname)
    · intro _ hi
      exact Or.inl hi
    · intro st h links hcond hf hpl hi
      rcases enqueueLinks_mem _ _ _ _ i hi with hi' | ⟨_, hu⟩
      · exact Or.inl hi'
      · exact Or.inr (processLinks_mem_host env su base.hostname h.hrefs links hpl i.url hu)
    · intro st h hcond hf hpl hi
      exact Or.inl hi
    · intro hs hcond hf hi
      exact Or.inl hi
  · have hinit : HostInv env base.hostname
        { g with queue := g.queue ++ [{ url := su, depth := 0 }], report := [] } := by
      constructor
      · intro i hi
        simp only [hq0, List.nil_append, List.mem_singleton] at hi
        rw [hi]
        exact ⟨base, hp, rfl⟩
      · intro r hr'
        cases hr'
    have hfin : HostInv env base.hostname gF :=
      crawlLoop_inv env su base.hostname D (HostInv env base.hostname)
        (HostInv_step env su base.hostname D) fuel _ gF hinit hloop
    intro r hr'
    exact hfin.2 r (by rw [← hrep]; exact hr')

/-! ### Per-record status and title -/

/-- How a report record relates to the fetch outcome of its URL: a success
response yields either the line-30 record (numeric status, extracted title) or
— when the link pipeline threw after the push — the additional line-47 record
(`'Erro'` sentinel, no title field); a fetch failure yields exactly the
line-47 record. -/
def recordMatchesFetch (env : Env) (r : PageRecord) : Prop :=
  match env.fetch r.url with
  | FetchResult.success st h =>
      (r.status = Status.code st ∧ r.title = some (jsTrim (String.join h.titleTexts))) ∨
      (r.status = Status.erro ∧ r.title = none)
  | FetchResult.failure hs => r.status = statusOfErr hs ∧ r.title = none

/-- Loop invariant: every record of the report matches its URL's fetch
outcome. -/
def RecordFetchInv (env : Env) (s : CrawlState) : Prop :=
  ∀ r ∈ s.report, recordMatchesFetch env r

theorem RecordFetchInv_step (env : Env) (su bd : String) (D : Nat)
    (item : FrontierItem) (rest : List FrontierItem) (s : CrawlState)
    (hP : RecordFetchInv env s) (_hq : s.queue = item :: rest) :
    RecordFetchInv env
      (step env su bd D item.url item.depth { s with queue := rest }) := by
  apply step_elim env su bd D item.url item.depth { s with queue := rest }
    (RecordFetchInv env)
  · intro _
    exact hP
  · intro st h links hcond hf hpl r hr
    rcases List.mem_append.mp hr with hr' | hr'
    · exact hP r hr'
    · rcases List.mem_singleton.mp hr' with rfl
      unfold recordMatchesFetch
      simp [successRecord, hf]
  · intro st h hcond hf hpl r hr
    rcases List.mem_append.mp hr with hr' | hr'
    · exact hP r hr'
    · rcases List.mem_cons.mp hr' with rfl | hr''
      · unfold recordMatchesFetch
        simp [successRecord, hf]
      · rcases List.mem_singleton.mp hr'' with rfl
        unfold recordMatchesFetch
        simp [failRecord, hf, statusOfErr]
  · intro hs hcond hf r hr
    rcases List.mem_append.mp hr with hr' | hr'
    · exact hP r hr'
    · rcases List.mem_singleton.mp hr' with rfl
      unfold recordMatchesFetch
      simp [failRecord, hf]

/-- Every record of a normally returned report matches its URL's fetch
outcome (the report starts empty on every call, so no assumption on the
ambient module state is needed). -/
theorem crawlSite_recordMatchesFetch (env : Env) (su : String) (D fuel : Nat)
    (g gF : CrawlState) (rep : List PageRecord)
    (hr : crawlSite env su D fuel g = CrawlOutcome.returned rep gF) :
    ∀ r ∈ rep, recordMatchesFetch env r := by
  obtain ⟨base, hp', hloop, hrep⟩ := crawlSite_returned env su D fuel g rep gF hr
  have hinit : RecordFetchInv env
      { g with queue := g.queue ++ [{ url := su, depth := 0 }], report := [] } := by
    intro r hr'
    cases hr'
  have hfin : RecordFetchInv env gF :=
    crawlLoop_inv env su base.hostname D (RecordFetchInv env)
      (RecordFetchInv_step env su base.hostname D) fuel _ gF hinit hloop
  intro r hr'
  exact hfin r (by rw [← hrep]; exact hr')

theorem statusOfErr_some_ne (n : Nat) (hn : n ≠ 0) :
    statusOfErr (some n) = Status.code n := by
  have hb : (n == 0) = false := beq_eq_false_iff_ne.mpr hn
  simp [statusOfErr, hb]

/-- Claim C7: when the fetch of a reported URL failed with a completed
HTTP response carrying status `n`, the record's status is the numeric code
`n`; when the failure carried no HTTP status (timeout, DNS, connection, TLS),
the record's status is the generic `'Erro'` marker. -/
theorem crawl_failure_status (env : Env) (su : String) (D fuel : Nat)
    (g gF : CrawlState) (rep : List PageRecord)
    (hr : crawlSite env su D fuel g = CrawlOutcome.returned rep gF) :
    ∀ r ∈ rep,
      (∀ n, env.fetch r.url = FetchResult.failure (some n) → n ≠ 0 →
        r.status = Status.code n) ∧
      (env.fetch r.url = FetchResult.failure none → r.status = Status.erro) := by
  intro r hrmem
  have hm := crawlSite_recordMatchesFetch env su D fuel g gF rep hr r hrmem
  constructor
  · intro n hf hn
    unfold recordMatchesFetch at hm
    rw [hf] at hm
    rw [hm.1]
    exact statusOfErr_some_ne n hn
  · intro hf
    unfold recordMatchesFetch at hm
    rw [hf] at hm
    exact hm.1

/-- The title extraction exactly as §4.3 of the specification words it: the
trimmed text content of the first `<title>` element, empty string if absent.
Stated for comparison with the source's `$('title').text().trim()`, which
concatenates the text of every `<title>` element before trimming. -/
def titleOfFirstSpec (h : Html) : String := jsTrim (h.titleTexts.headD "")

/-- Claim C9 (amended): for every successfully fetched page, the line-30
record's title is the trimmed concatenation of the text contents of all the
page's `<title>` elements — in particular the empty string when the page has
no `<title>` element (and the trimmed text of the first `<title>` whenever
the page has at most one). -/
theorem crawl_success_title (env : Env) (su : String) (D fuel : Nat)
    (g gF : CrawlState) (rep : List PageRecord)
    (hr : crawlSite env su D fuel g = CrawlOutcome.returned rep gF) :
    ∀ r ∈ rep, ∀ (st : Nat) (h : Html),
      env.fetch r.url = FetchResult.success st h →
      r.status = Status.code st →
      r.title = some (jsTrim (String.join h.titleTexts)) ∧
      (h.titleTexts = [] → r.title = some "") := by
  intro r hrmem st h hf hst
  have hm := crawlSite_recordMatchesFetch env su D fuel g gF rep hr r hrmem
  unfold recordMatchesFetch at hm
  rw [hf] at hm
  rcases hm with ⟨_, htitle⟩ | ⟨herro, _⟩
  · refine ⟨htitle, ?_⟩
    intro hnil
    rw [htitle, hnil]
    decide
  · rw [hst] at herro
    cases herro

/-- Claim C8: an unparseable start URL makes `crawlSite` throw before the
loop runs — the outcome is the propagated `TypeError`, no normal return with
a report exists, and the fetch trace is untouched (no fetch was attempted). -/
theorem crawl_invalid_start (env : Env) (su : String) (D fuel : Nat) (g : CrawlState)
    (hp : env.parseUrl su = none) :
    crawlSite env su D fuel g =
      CrawlOutcome.thrown
        { g with queue := g.queue ++ [{ url := su, depth := 0 }], report := [] } ∧
    (∀ rep gF, crawlSite env su D fuel g ≠ CrawlOutcome.returned rep gF) ∧
    ({ g with queue := g.queue ++ [{ url := su, depth := 0 }], report := [] } :
      CrawlState).fetched = g.fetched := by
  have h1 : crawlSite env su D fuel g =
      CrawlOutcome.thrown
        { g with queue := g.queue ++ [{ url := su, depth := 0 }], report := [] } := by
    unfold crawlSite
    simp only [hp]
  refine ⟨h1, ?_, rfl⟩
  intro rep gF hcon
  rw [h1] at hcon
  exact CrawlOutcome.noConfusion hcon

/-! ### Persistence of the module state across calls -/

/-- Invariant for the seed: the start URL is already visited, or its seed item
is still queued. -/
def SeedInv (su : String) (s : CrawlState) : Prop :=
  su ∈ s.visited ∨ ({ url := su, depth := 0 } : FrontierItem) ∈ s.queue

theorem SeedInv_step (env : Env) (su bd : String) (D : Nat)
    (item : FrontierItem) (rest : List FrontierItem) (s : CrawlState)
    (hP : SeedInv su s) (hq : s.queue = item :: rest) :
    SeedInv su (step env su bd D item.url item.depth { s with queue := rest }) := by
  apply step_elim env su bd D item.url item.depth { s with queue := rest } (SeedInv su)
  · intro hcond
    rcases hP with hv | hseed
    · exact Or.inl hv
    · rw [hq] at hseed
      rcases List.mem_cons.mp hseed with hhd | htl
    -- the dequeued item is the seed itself: the skip condition forces it to
    -- be already visited (its depth 0 can never exceed the bound)
      · rcases hcond with hc | hc
        · refine Or.inl ?_
          have : item.url = su := by rw [← hhd]
          rw [← this]
          exact List.elem_iff.mp hc
        · have : item.depth = 0 := by rw [← hhd]
          rw [this] at hc
          exact absurd hc (Nat.not_lt_zero D)
      · exact Or.inr htl
  · intro st h links hcond hf hpl
    rcases hP with hv | hseed
    · exact Or.inl (List.mem_append.mpr (Or.inl hv))
    · rw [hq] at hseed
      rcases List.mem_cons.mp hseed with hhd | htl
      · refine Or.inl ?_
        have : item.url = su := by rw [← hhd]
        rw [← this]
        exact List.mem_append.mpr (Or.inr (List.mem_singleton.mpr rfl))
      · refine Or.inr ?_
        rw [enqueueLinks_eq_append]
        exact List.mem_append.mpr (Or.inl htl)
  · intro st h hcond hf hpl
    rcases hP with hv | hseed
    · exact Or.inl (List.mem_append.mpr (Or.inl hv))
    · rw [hq] at hseed
      rcases List.mem_cons.mp hseed with hhd | htl
      · refine Or.inl ?_
        have : item.url = su := by rw [← hhd]
        rw [← this]
        exact List.mem_append.mpr (Or.inr (List.mem_singleton.mpr rfl))
      · exact Or.inr htl
  · intro hs hcond hf
    rcases hP with hv | hseed
    · exact Or.inl (List.mem_append.mpr (Or.inl hv))
    · rw [hq] at hseed
      rcases List.mem_cons.mp hseed with hhd | htl
      · refine Or.inl ?_
        have : item.url = su := by rw [← hhd]
        rw [← this]
        exact List.mem_append.mpr (Or.inr (List.mem_singleton.mpr rfl))
      · exact Or.inr htl

/-- After a normal return, the start URL is in the module-level visited set
and the module-level queue is empty. -/
theorem crawlSite_seed_visited (env : Env) (su : String) (D fuel : Nat)
    (g gF : CrawlState) (rep : List PageRecord)
    (hr : crawlSite env su D fuel g = CrawlOutcome.returned rep gF) :
    su ∈ gF.visited ∧ gF.queue = [] := by
  obtain ⟨base, hp, hloop, hrep⟩ := crawlSite_returned env su D fuel g rep gF hr
  have hqnil := crawlLoop_final_queue env su base.hostname D fuel _ gF hloop
  have hinit : SeedInv su
      { g with queue := g.queue ++ [{ url := su, depth := 0 }], report := [] } :=
    Or.inr (List.mem_append.mpr (Or.inr (List.mem_singleton.mpr rfl)))
  have hfin : SeedInv su gF :=
    crawlLoop_inv env su base.hostname D (SeedInv su)
      (SeedInv_step env su base.hostname D) fuel _ gF hinit hloop
  refine ⟨?_, hqnil⟩
  rcases hfin with hv | hseed
  · exact hv
  · rw [hqnil] at hseed
    cases hseed

/-- Invariant for a crawl started with visited set containing `V`: no record
of the current report carries a URL of `V`, and `V` stays inside the visited
set. -/
def FreshRecordsInv (V : List String) (s : CrawlState) : Prop :=
  (∀ r ∈ s.report, r.url ∉ V) ∧ (∀ v ∈ V, v ∈ s.visited)

theorem FreshRecordsInv_step (env : Env) (su bd : String) (D : Nat) (V : List String)
    (item : FrontierItem) (rest : List FrontierItem) (s : CrawlState)
    (hP : FreshRecordsInv V s) (_hq : s.queue = item :: rest) :
    FreshRecordsInv V
      (step env su bd D item.url item.depth { s with queue := rest }) := by
  obtain ⟨hRep, hVis⟩ := hP
  have hnotV : ¬(s.visited.contains item.url = true ∨ D < item.depth) →
      item.url ∉ V := by
    intro hcond hmem
    exact (not_or.mp hcond).1 (List.elem_iff.mpr (hVis item.url hmem))
  apply step_elim env su bd D item.url item.depth { s with queue := rest }
    (FreshRecordsInv V)
  · intro _
    exact ⟨hRep, hVis⟩
  · intro st h links hcond hf hpl
    constructor
    · intro r hrm
      rcases List.mem_append.mp hrm with hrm' | hrm'
      · exact hRep r hrm'
      · rcases List.mem_singleton.mp hrm' with rfl
        exact hnotV hcond
    · intro v hv
      exact List.mem_append.mpr (Or.inl (hVis v hv))
  · intro st h hcond hf hpl
    constructor
    · intro r hrm
      rcases List.mem_append.mp hrm with hrm' | hrm'
      · exact hRep r hrm'
      · rcases List.mem_cons.mp hrm' with rfl | hrm''
        · exact hnotV hcond
        · rcases List.mem_singleton.mp hrm'' with rfl
          exact hnotV hcond
    · intro v hv
      exact List.mem_append.mpr (Or.inl (hVis v hv))
  · intro hs hcond hf
    constructor
    · intro r hrm
      rcases List.mem_append.mp hrm with hrm' | hrm'
      · exact hRep r hrm'
      · rcases List.mem_singleton.mp hrm' with rfl
        exact hnotV hcond
    · intro v hv
      exact List.mem_append.mpr (Or.inl (hVis v hv))

/-- Claim C10: the visited set and frontier are module state surviving across
calls — a second call never reports a URL the first call left in the visited
set, and a second call with the same start URL returns an empty report. -/
theorem crawl_state_persists (env : Env) (u1 u2 : String) (D1 D2 f1 f2 : Nat)
    (g0 g1 g2 : CrawlState) (rep1 rep2 : List PageRecord)
    (h1 : crawlSite env u1 D1 f1 g0 = CrawlOutcome.returned rep1 g1)
    (h2 : crawlSite env u2 D2 f2 g1 = CrawlOutcome.returned rep2 g2) :
    (∀ r ∈ rep2, r.url ∉ g1.visited) ∧ (u2 = u1 → rep2 = []) := by
  constructor
  · obtain ⟨base2, hp2, hloop2, hrep2⟩ := crawlSite_returned env u2 D2 f2 g1 rep2 g2 h2
    have hinit : FreshRecordsInv g1.visited
        { g1 with queue := g1.queue ++ [{ url := u2, depth := 0 }], report := [] } :=
      ⟨fun r hrm => absurd hrm (List.not_mem_nil r), fun v hv => hv⟩
    have hfin : FreshRecordsInv g1.visited g2 :=
      crawlLoop_inv env u2 base2.hostname D2 (FreshRecordsInv g1.visited)
        (FreshRecordsInv_step env u2 base2.hostname D2 g1.visited) f2 _ g2 hinit hloop2
    intro r hrm
    exact hfin.1 r (by rw [← hrep2]; exact hrm)
  · intro hequ
    subst hequ
    obtain ⟨hv, hqnil⟩ := crawlSite_seed_visited env u2 D1 f1 g0 g1 rep1 h1
    obtain ⟨base1, hp1, hloop1, hrep1⟩ := crawlSite_returned env u2 D1 f1 g0 rep1 g1 h1
    unfold crawlSite at h2
    simp only [hp1] at h2
    have hq2 : ({ g1 with queue := g1.queue ++ [{ url := u2, depth := 0 }], report := [] } : CrawlState).queue = ({ url := u2, depth := 0 } : FrontierItem) :: [] := by
      simp [hqnil]
    have hstepskip :
        step env u2 base1.hostname D2 u2 0
          { g1 with queue := ([] : List FrontierItem), report := ([] : List PageRecord) } =
        { g1 with queue := ([] : List FrontierItem), report := ([] : List PageRecord) } := by
      unfold step
      rw [if_pos (Or.inl (List.elem_iff.mpr hv))]
    cases f2 with
    | zero =>
      rw [crawlLoop_queue_cons_zero env u2 base1.hostname D2 _ _ _ hq2] at h2
      exact CrawlOutcome.noConfusion h2
    | succ f =>
      rw [crawlLoop_queue_cons_succ env u2 base1.hostname D2 f _ _ _ hq2] at h2
      rw [hstepskip] at h2
      rw [crawlLoop_queue_nil env u2 base1.hostname D2 f _ rfl] at h2
      rw [CrawlOutcome.returned.injEq] at h2
      exact h2.1.symm

/-! ### Concrete environments

`envA` exercises the malformed-href path: its only page carries a relative
(non root-relative) href, which `new URL` cannot parse.  `envB` exercises a
page with two `<title>` elements.  `envW` is a small well-behaved two-page
site.  `envBad` parses no URL at all. -/

def htmlA : Html :=
  { titleTexts := ["Home"], descriptionContent := none, h1Count := 0, h2Count := 0,
    canonicalHref := none, robotsContent := none,
    hrefs := ["about.html", "https://a.test/next"] }

def envA : Env :=
  { parseUrl := fun s =>
      if s = "https://a.test/" then some { hostname := "a.test", href := "https://a.test/" }
      else if s = "https://a.test/next" then
        some { hostname := "a.test", href := "https://a.test/next" }
      else none
    resolveUrl := fun _ _ => none
    fetch := fun u =>
      if u = "https://a.test/" then FetchResult.success 200 htmlA
      else FetchResult.failure (some 404) }

def htmlB : Html :=
  { titleTexts := ["A", "B"], descriptionContent := none, h1Count := 0, h2Count := 0,
    canonicalHref := none, robotsContent := none, hrefs := [] }

def envB : Env :=
  { parseUrl := fun s =>
      if s = "https://b.test/" then some { hostname := "b.test", href := "https://b.test/" }
      else none
    resolveUrl := fun _ _ => none
    fetch := fun u =>
      if u = "https://b.test/" then FetchResult.success 200 htmlB
      else FetchResult.failure none }

def htmlW : Html :=
  { titleTexts := [" Home "], descriptionContent := some "desc", h1Count := 1, h2Count := 2,
    canonicalHref := some "https://w.test/", robotsContent := some "noindex, follow",
    hrefs := ["/a", "#top", "mailto:a@b", "https://x.test/", "https://w.test/"] }

def envW : Env :=
  { parseUrl := fun s =>
      if s = "https://w.test/" then some { hostname := "w.test", href := "https://w.test/" }
      else if s = "https://w.test/a" then
        some { hostname := "w.test", href := "https://w.test/a" }
      else if s = "https://x.test/" then
        some { hostname := "x.test", href := "https://x.test/" }
      else none
    resolveUrl := fun href base =>
      if href = "/a" && base = "https://w.test/" then
        some { hostname := "w.test", href := "https://w.test/a" }
      else none
    fetch := fun u =>
      if u = "https://w.test/" then FetchResult.success 200 htmlW
      else if u = "https://w.test/a" then FetchResult.failure (some 404)
      else FetchResult.failure none }

def envBad : Env :=
  { parseUrl := fun _ => none
    resolveUrl := fun _ _ => none
    fetch := fun _ => FetchResult.failure none }

/-- The line-30 record `envW`'s crawl produces for the seed page. -/
def wRecordHome : PageRecord :=
  { url := "https://w.test/", status := Status.code 200, title := some "Home",
    description := some "desc", h1 := some 1, h2 := some 2,
    canonical := some "https://w.test/", noindex := some true, depth := 0 }

/-- The line-47 record `envW`'s crawl produces for the 404 page. -/
def wRecord404 : PageRecord :=
  { url := "https://w.test/a", status := Status.code 404, depth := 1 }

/-- The module state after the first `envW` crawl. -/
def wFinal : CrawlState :=
  { visited := ["https://w.test/", "https://w.test/a"], queue := [],
    report := [wRecordHome, wRecord404],
    fetched := ["https://w.test/", "https://w.test/a"] }

/-- The module state after a second `envW` crawl from the same seed. -/
def wFinal2 : CrawlState :=
  { wFinal with report := [] }

/-! ### The malformed-href defect and the multiple-title discrepancy -/

/-- Claim C1: refuted on the code.  Crawling a seed page whose HTML contains
the relative href `about.html` puts the seed URL into the report twice: the
line-30 success record, then the line-47 sentinel record pushed when
`new URL("about.html")` throws inside the `try` block. -/
theorem crawl_report_url_duplicated :
    (reportOf (crawlSite envA "https://a.test/" 3 3 freshState)).map PageRecord.url =
      ["https://a.test/", "https://a.test/"] ∧
    ¬ ((reportOf (crawlSite envA "https://a.test/" 3 3 freshState)).map
        PageRecord.url).Nodup := by
  exact ⟨by decide, by decide⟩

/-- Claim C2: refuted on the code.  The seed of `envA` is dequeued exactly
once, unvisited and within depth, yet its iteration pushes two records — the
line-30 record and, after the link pipeline throws on `about.html`, the
line-47 record. -/
theorem step_two_records_for_one_item :
    freshState.visited.contains "https://a.test/" = false ∧
    (step envA "https://a.test/" "a.test" 3 "https://a.test/" 0 freshState).report.map
      PageRecord.url = ["https://a.test/", "https://a.test/"] ∧
    (step envA "https://a.test/" "a.test" 3 "https://a.test/" 0 freshState).report.map
      PageRecord.status = [Status.code 200, Status.erro] := by
  exact ⟨by decide, by decide, by decide⟩

/-- Claim C3: refuted on the code.  On the seed page of `envA` the malformed
href `about.html` passes the navigability filter and `https://a.test/next` is
a valid in-scope link, yet the pipeline of lines 32-39 throws, so no link at
all is enqueued and the page gains a spurious sentinel record instead of
keeping its single success record. -/
theorem malformed_href_aborts_links :
    keepHref "about.html" = true ∧
    scopeKeep envA "a.test" "https://a.test/next" = Except.ok true ∧
    processLinks envA "https://a.test/" "a.test" htmlA.hrefs = Except.error () ∧
    (step envA "https://a.test/" "a.test" 3 "https://a.test/" 0 freshState).queue = [] ∧
    (step envA "https://a.test/" "a.test" 3 "https://a.test/" 0 freshState).report.map
      PageRecord.status = [Status.code 200, Status.erro] := by
  exact ⟨by decide, rfl, rfl, by decide, by decide⟩

/-- Claim C9, counterexample: on a page with two title elements whose texts
are `A` and `B`, the record of the successfully fetched page carries title
`AB` — the concatenation — while the trimmed text of the first title element
is `A`. -/
theorem title_not_first_title :
    (reportOf (crawlSite envB "https://b.test/" 3 2 freshState)).map PageRecord.title =
      [some "AB"] ∧
    (reportOf (crawlSite envB "https://b.test/" 3 2 freshState)).map PageRecord.status =
      [Status.code 200] ∧
    titleOfFirstSpec htmlB = "A" ∧
    some (titleOfFirstSpec htmlB) ∉
      (reportOf (crawlSite envB "https://b.test/" 3 2 freshState)).map PageRecord.title := by
  exact ⟨by decide, by decide, by decide, by decide⟩

/-! ### Witnesses -/

theorem crawl_depth_bounded_witness : wRecord404.depth ≤ 1 :=
  (crawl_depth_bounded envW "https://w.test/"
      { hostname := "w.test", href := "https://w.test/" } 1 3 freshState wFinal
      [wRecordHome, wRecord404] rfl (by decide) (by decide)).1
    wRecord404 (by decide)

theorem crawl_breadth_first_witness :
    List.Pairwise (fun a b : PageRecord => a.depth ≤ b.depth) [wRecordHome, wRecord404] :=
  crawl_breadth_first envW "https://w.test/" 1 3 freshState wFinal
    [wRecordHome, wRecord404] rfl (by decide)

theorem crawl_domain_scoped_witness :
    ∃ p, envW.parseUrl wRecord404.url = some p ∧ p.hostname = "w.test" :=
  (crawl_domain_scoped envW "https://w.test/"
      { hostname := "w.test", href := "https://w.test/" } 1 3 freshState wFinal
      [wRecordHome, wRecord404] rfl (by decide) (by decide)).2
    wRecord404 (by decide)

theorem crawl_failure_status_witness : wRecord404.status = Status.code 404 :=
  ((crawl_failure_status envW "https://w.test/" 1 3 freshState wFinal
      [wRecordHome, wRecord404] (by decide)) wRecord404 (by decide)).1
    404 (by decide) (by decide)

theorem crawl_invalid_start_witness :
    crawlSite envBad "bogus" 3 5 freshState =
      CrawlOutcome.thrown
        { freshState with
            queue := freshState.queue ++ [{ url := "bogus", depth := 0 }],
            report := [] } :=
  (crawl_invalid_start envBad "bogus" 3 5 freshState rfl).1

theorem crawl_success_title_witness :
    wRecordHome.title = some (jsTrim (String.join htmlW.titleTexts)) :=
  ((crawl_success_title envW "https://w.test/" 1 3 freshState wFinal
      [wRecordHome, wRecord404] (by decide)) wRecordHome (by decide) 200 htmlW
    (by decide) (by decide)).1

theorem crawl_state_persists_witness :
    (∀ r ∈ ([] : List PageRecord), r.url ∉ wFinal.visited) ∧
    ("https://w.test/" = "https://w.test/" → ([] : List PageRecord) = []) :=
  crawl_state_persists envW "https://w.test/" "https://w.test/" 1 1 3 3 freshState
    wFinal wFinal2 [wRecordHome, wRecord404] [] (by decide) (by decide)

end SeoCrawler
